import Mathlib

/-!
Verification of the mosquito-pt2d tracking system.

This file gives a shallow embedding, in Lean 4, of the pure control logic of
the Python sources (`pt2d_controller.py`, `mosquito_tracker.py`,
`mosquito_detector.py`, `depth_estimator.py`, `temperature_monitor.py`,
`streaming_tracking_system.py`) and proves properties of that logic.

Embedding conventions:
* Python floats are modelled as rationals (`ℚ`); all the compared quantities
  in the embedded code paths are produced by field operations on inputs, so
  this is exact for the orderings the code branches on, except for `np.sqrt`:
  every comparison `np.sqrt d < t` of a distance against a threshold is
  rendered in its squared form `0 < t ∧ d < t^2`, and comparisons between two
  square roots of nonnegative numbers as comparisons of the radicands, which
  is equivalent because the square root is strictly monotone on nonnegatives.
* Serial I/O is modelled with a deterministic device oracle
  `dev : String → Option DeviceResp` giving the parsed JSON reply (or `none`
  for a timeout); functions return the list of command strings written to the
  serial port alongside their Python return value.
* Methods that mutate `self` are modelled as functions from the relevant
  state record to the updated record.
-/

/-! ## pt2d_controller.py -/

/-- The fields of `PT2DController` relevant to command sending: connection
flag, servo-enable flag and the angle limits obtained from the device. -/
structure PT2DController where
  is_connected : Bool
  servo_enabled : Bool
  pan_min : Int
  pan_max : Int
  tilt_min : Int
  tilt_max : Int
deriving DecidableEq, Repr

/-- A parsed JSON reply from the Arduino: the optional `pan`/`tilt` fields
are the only ones the embedded code paths inspect. -/
structure DeviceResp where
  pan : Option Int
  tilt : Option Int
deriving DecidableEq, Repr

/-- The Python dict returned by a controller method: either an error dict
`\x7b'error': msg\x7d` or the parsed device reply. -/
inductive CmdResult where
  | errorDict (msg : String)
  | respDict (r : DeviceResp)
deriving DecidableEq, Repr

/-- Command framing from `send_command`: wrap in `<`…`>` unless already
framed (`cmd.startswith('<')`, i.e. the first character is `<`), then
terminate with a newline unless already terminated (`cmd.endswith('\n')`,
i.e. the last character is `\n`). -/
def formatCommand (cmd : String) : String :=
  let c := if cmd.data.head? = some '<' then cmd else "<" ++ cmd ++ ">"
  if c.data.getLast? = some '\n' then c else c ++ "\n"

/-- `PT2DController.send_command` under a deterministic device oracle.
Returns the Python result together with the list of strings written to the
serial port.  When not connected it returns `\x7b'error': 'Not connected'\x7d`
before touching the port.  With a deterministic oracle the retry loop either
succeeds on the first attempt (one write) or exhausts all `retry` attempts
(one write per attempt) and returns `\x7b'error': 'No response received'\x7d`. -/
def send_command (c : PT2DController) (dev : String → Option DeviceResp)
    (cmd : String) (retry : Nat := 1) : CmdResult × List String :=
  if !c.is_connected then (.errorDict "Not connected", [])
  else
    let fcmd := formatCommand cmd
    match dev fcmd with
    | some r => (.respDict r, [fcmd])
    | none => (.errorDict "No response received", List.replicate retry fcmd)

/-- `PT2DController.get_position`: sends `POS` and returns the `pan`/`tilt`
fields when both are present, `(None, None)` otherwise. -/
def get_position (c : PT2DController) (dev : String → Option DeviceResp) :
    (Option Int × Option Int) × List String :=
  let (r, ws) := send_command c dev "POS"
  match r with
  | .respDict resp =>
    match resp.pan, resp.tilt with
    | some p, some t => ((some p, some t), ws)
    | _, _ => ((none, none), ws)
  | _ => ((none, none), ws)

/-- `PT2DController.move_to`: refuses when servo control is disabled, clamps
pan and tilt into the device-reported ranges, then sends `MOVE:pan,tilt`.
The controller state is returned unchanged (the method assigns no fields). -/
def move_to (c : PT2DController) (dev : String → Option DeviceResp)
    (pan tilt : Int) : CmdResult × List String × PT2DController :=
  if !c.servo_enabled then
    (.errorDict "Servo control is disabled due to initialization failure", [], c)
  else
    let pan := max c.pan_min (min c.pan_max pan)
    let tilt := max c.tilt_min (min c.tilt_max tilt)
    let (r, ws) := send_command c dev ("MOVE:" ++ toString pan ++ "," ++ toString tilt)
    (r, ws, c)

/-- `PT2DController.move_by`: refuses when servo control is disabled, resolves
the current position with a `POS` query (rejecting the move when it cannot be
resolved), computes the range-clamped target position — which the source only
uses in a debug log — and then sends `MOVER:pan_delta,tilt_delta` with the
raw, unclamped deltas, exactly as the source does. -/
def move_by (c : PT2DController) (dev : String → Option DeviceResp)
    (pan_delta tilt_delta : Int) : CmdResult × List String × PT2DController :=
  if !c.servo_enabled then
    (.errorDict "Servo control is disabled due to initialization failure", [], c)
  else
    let ((cp, ct), ws1) := get_position c dev
    match cp, ct with
    | some current_pan, some current_tilt =>
      let target_pan := max c.pan_min (min c.pan_max (current_pan + pan_delta))
      let target_tilt := max c.tilt_min (min c.tilt_max (current_tilt + tilt_delta))
      let _ := (target_pan, target_tilt)
      let (r, ws2) :=
        send_command c dev ("MOVER:" ++ toString pan_delta ++ "," ++ toString tilt_delta)
      (r, ws1 ++ ws2, c)
    | _, _ => (.errorDict "Cannot get current position", ws1, c)

/-- A connected controller with the default Arduino-reported limits
(`pan` in `[0, 270]`, `tilt` in `[15, 165]`). -/
def ctrl0 : PT2DController :=
  { is_connected := true, servo_enabled := true
    pan_min := 0, pan_max := 270, tilt_min := 15, tilt_max := 165 }

/-- A device oracle whose `POS` reply reports the gimbal parked at
`pan = 270` (the pan maximum), `tilt = 90`, and which acknowledges every
other command. -/
def devAt270 : String → Option DeviceResp := fun cmd =>
  if cmd = "<POS>\n" then some { pan := some 270, tilt := some 90 }
  else some { pan := none, tilt := none }

/-- C1: at the failing input — a connected, enabled controller whose device
reports the current position `pan = 270 = pan_max`, asked to `move_by(100, 0)`
— the command written to the serial port is `<MOVER:100,0>\n` with the raw,
unclamped delta, although the clamped target pan (`270`) differs from
`current + delta = 370`, which exceeds `pan_max = 270`.  The source computes
the clamped target but only logs it; its docstring promises the final angle
is limited to the safe range. -/
theorem move_by_sends_unclamped_delta :
    (move_by ctrl0 devAt270 100 0).2.1 = ["<POS>\n", "<MOVER:100,0>\n"] ∧
    ctrl0.pan_max < 270 + 100 ∧
    max ctrl0.pan_min (min ctrl0.pan_max (270 + 100)) = 270 := by
  refine ⟨by decide, by decide, by decide⟩

/-- C1 (amended direction, not claimed): `move_to` does clamp before
sending — included here only as a sanity check of the absolute-move half. -/
theorem move_to_clamps_example :
    (move_to ctrl0 devAt270 400 (-30)).2.1 = ["<MOVE:270,15>\n"] := by decide

/-- C10: a disconnected controller's `send_command` returns
`\x7b'error': 'Not connected'\x7d` and writes nothing to the serial port; with
servo control disabled, `move_to` and `move_by` each return an error dict,
write nothing, and leave the stored angle-limit state unchanged. -/
theorem disconnected_and_disabled_guards
    (c : PT2DController) (dev : String → Option DeviceResp) :
    (c.is_connected = false →
      ∀ cmd retry, send_command c dev cmd retry = (.errorDict "Not connected", [])) ∧
    (c.servo_enabled = false →
      ∀ pan tilt, move_to c dev pan tilt =
        (.errorDict "Servo control is disabled due to initialization failure", [], c)) ∧
    (c.servo_enabled = false →
      ∀ pd td, move_by c dev pd td =
        (.errorDict "Servo control is disabled due to initialization failure", [], c)) := by
  refine ⟨fun h cmd retry => ?_, fun h pan tilt => ?_, fun h pd td => ?_⟩
  · simp [send_command, h]
  · simp [move_to, h]
  · simp [move_by, h]

/-- Witness for `disconnected_and_disabled_guards` at a concrete controller
that is neither connected nor servo-enabled. -/
theorem disconnected_and_disabled_guards_witness :
    send_command { ctrl0 with is_connected := false } devAt270 "POS" 1 =
      (.errorDict "Not connected", []) ∧
    move_to { ctrl0 with servo_enabled := false } devAt270 135 90 =
      (.errorDict "Servo control is disabled due to initialization failure", [],
        { ctrl0 with servo_enabled := false }) := by
  have h := disconnected_and_disabled_guards
    { ctrl0 with is_connected := false } devAt270
  have h' := disconnected_and_disabled_guards
    { ctrl0 with servo_enabled := false } devAt270
  exact ⟨h.1 rfl "POS" 1, h'.2.1 rfl 135 90⟩

/-! ## temperature_monitor.py / mosquito_detector.py — environmental interlocks

The interval-based caching in `check_temperature` and
`check_illumination_status` only limits how often a fresh reading is taken;
the embedded step functions below model the threshold logic applied to each
fresh reading. -/

/-- The mutable flags of `TemperatureMonitor` the threshold logic touches. -/
structure TempState where
  is_paused : Bool
  warning_shown : Bool
deriving DecidableEq, Repr

/-- The `status` string returned by `check_temperature` for a fresh reading. -/
inductive TempStatus where
  | normal
  | paused
  | resumed
  | warning
deriving DecidableEq, Repr

/-- The threshold logic of `TemperatureMonitor.check_temperature` on a fresh
reading `temp`: pause at `pause_threshold`, resume only at the separate
`resume_threshold`, warn once at `warning_threshold`. -/
def check_temperature_step (warn pauseT resumeT : ℚ) (s : TempState) (temp : ℚ) :
    TempState × TempStatus :=
  if s.is_paused = false ∧ pauseT ≤ temp then
    ({ s with is_paused := true }, .paused)
  else if s.is_paused = true ∧ temp ≤ resumeT then
    ({ is_paused := false, warning_shown := false }, .resumed)
  else if s.is_paused = false ∧ warn ≤ temp then
    if s.warning_shown = false then ({ s with warning_shown := true }, .warning)
    else (s, .normal)
  else if s.warning_shown = true ∧ temp < warn then
    ({ s with warning_shown := false }, .normal)
  else (s, .normal)

/-- `check_temperature` applied to a sequence of fresh readings, collecting
the status of every step. -/
def temperatureTrace (warn pauseT resumeT : ℚ) (s : TempState) :
    List ℚ → TempState × List TempStatus
  | [] => (s, [])
  | t :: ts =>
    let step := check_temperature_step warn pauseT resumeT s t
    let rest := temperatureTrace warn pauseT resumeT step.1 ts
    (rest.1, step.2 :: rest.2)

/-- The single mutable pause flag of the illumination monitor. -/
structure IllumState where
  illumination_paused : Bool
deriving DecidableEq, Repr

/-- The `status` string returned by `check_illumination_status` for a fresh
reading. -/
inductive IllumStatus where
  | ok
  | warning
  | paused
deriving DecidableEq, Repr

/-- The threshold logic of `MosquitoDetector.check_illumination_status` on a
fresh brightness reading: pause below `illumination_pause_threshold`,
otherwise clear the pause flag (there is no separate resume threshold). -/
def check_illumination_step (warn pauseT : Int) (_s : IllumState) (illum : Int) :
    IllumState × IllumStatus :=
  if illum < pauseT then ({ illumination_paused := true }, .paused)
  else if illum < warn then ({ illumination_paused := false }, .warning)
  else ({ illumination_paused := false }, .ok)

/-- `check_illumination_status` applied to a sequence of fresh readings. -/
def illuminationTrace (warn pauseT : Int) (s : IllumState) :
    List Int → IllumState × List IllumStatus
  | [] => (s, [])
  | t :: ts =>
    let step := check_illumination_step warn pauseT s t
    let rest := illuminationTrace warn pauseT step.1 ts
    (rest.1, step.2 :: rest.2)

/-- While paused with every reading above the resume threshold, the
temperature monitor stays paused and emits no further pause transition. -/
theorem temperatureTrace_stays_paused (warn pauseT resumeT : ℚ)
    (s : TempState) (ts : List ℚ)
    (hp : s.is_paused = true) (hr : ∀ t ∈ ts, resumeT < t) :
    (temperatureTrace warn pauseT resumeT s ts).1.is_paused = true ∧
    ((temperatureTrace warn pauseT resumeT s ts).2.count .paused = 0) := by
  induction ts generalizing s with
  | nil => exact ⟨hp, rfl⟩
  | cons t ts ih =>
    have ht : resumeT < t := hr t (List.mem_cons_self t ts)
    have hr' : ∀ u ∈ ts, resumeT < u := fun u hu => hr u (List.mem_cons_of_mem t hu)
    have hstep : (check_temperature_step warn pauseT resumeT s t).1.is_paused = true ∧
        (check_temperature_step warn pauseT resumeT s t).2 ≠ .paused := by
      unfold check_temperature_step
      split
      · rename_i h; rw [hp] at h; exact absurd h.1 (by simp)
      · split
        · rename_i h; exact absurd h.2 (not_le.mpr ht)
        · split
          · rename_i h; rw [hp] at h; exact absurd h.1 (by simp)
          · split
            · exact ⟨hp, by simp⟩
            · exact ⟨hp, by simp⟩
    have hrest := ih _ hstep.1 hr'
    refine ⟨by simpa only [temperatureTrace] using hrest.1, ?_⟩
    simp only [temperatureTrace, List.count_cons, hrest.2, hstep.2]
    simp [hstep.2]

/-- A fresh reading below the pause threshold keeps the temperature monitor
unpaused and never reports a pause transition. -/
theorem check_temperature_step_below_pause (warn pauseT resumeT : ℚ)
    (s : TempState) (temp : ℚ)
    (h : s.is_paused = false) (hlt : temp < pauseT) :
    (check_temperature_step warn pauseT resumeT s temp).1.is_paused = false ∧
    (check_temperature_step warn pauseT resumeT s temp).2 ≠ .paused := by
  unfold check_temperature_step
  split
  · rename_i hc; exact absurd hc.2 (not_le.mpr hlt)
  · split
    · rename_i hc; rw [h] at hc; exact absurd hc.1 (by simp)
    · split
      · split
        · exact ⟨h, by simp⟩
        · exact ⟨h, by simp⟩
      · split
        · exact ⟨h, by simp⟩
        · exact ⟨h, by simp⟩

/-- C5 counterexample: with illumination warning threshold 50 and pause
threshold 30, the brightness sequence 20, 40, 20 — which oscillates between
the pause and warning thresholds — produces two `paused` transitions, and a
paused illumination monitor re-opens at a reading equal to the pause
threshold itself: there is no distinct, less extreme resume threshold. -/
theorem illumination_interlock_no_hysteresis :
    (illuminationTrace 50 30 { illumination_paused := false } [20, 40, 20]).2.count
      .paused = 2 ∧
    (check_illumination_step 50 30 { illumination_paused := true } 30).1.illumination_paused
      = false := by
  refine ⟨by decide, by decide⟩

/-- C5 (amended): the temperature interlock has genuine hysteresis — any
reading sequence that never crosses the resume threshold produces at most one
pause transition, and a paused monitor re-opens only at a reading at or below
the distinct resume threshold — while the illumination interlock has none:
its pause flag after any fresh reading is `true` exactly when the reading is
below the pause threshold, so it re-opens at the pause threshold itself. -/
theorem interlock_hysteresis_amended (warn pauseT resumeT : ℚ)
    (iwarn ipauseT : Int) :
    (∀ (s : TempState) (ts : List ℚ), (∀ t ∈ ts, resumeT < t) →
      (temperatureTrace warn pauseT resumeT s ts).2.count .paused ≤ 1) ∧
    (∀ (s : TempState) (temp : ℚ), s.is_paused = true →
      (check_temperature_step warn pauseT resumeT s temp).1.is_paused = false →
      temp ≤ resumeT) ∧
    (∀ (s : IllumState) (illum : Int),
      (check_illumination_step iwarn ipauseT s illum).1.illumination_paused = true ↔
        illum < ipauseT) := by
  refine ⟨?_, ?_, ?_⟩
  · intro s ts hr
    induction ts generalizing s with
    | nil => simp [temperatureTrace]
    | cons t ts ih =>
      have ht : resumeT < t := hr t (List.mem_cons_self t ts)
      have hr' : ∀ u ∈ ts, resumeT < u := fun u hu => hr u (List.mem_cons_of_mem t hu)
      by_cases hp : s.is_paused = true
      · have := temperatureTrace_stays_paused warn pauseT resumeT s (t :: ts) hp hr
        omega
      · have hp' : s.is_paused = false := by simpa using hp
        by_cases hge : pauseT ≤ t
        · have hstep : check_temperature_step warn pauseT resumeT s t =
              ({ s with is_paused := true }, .paused) := by
            unfold check_temperature_step
            rw [if_pos ⟨hp', hge⟩]
          have hrest := temperatureTrace_stays_paused warn pauseT resumeT
            { s with is_paused := true } ts rfl hr'
          simp only [temperatureTrace, hstep, List.count_cons, hrest.2]
          simp
        · have hstep := check_temperature_step_below_pause warn pauseT resumeT s t hp'
            (not_le.mp hge)
          have hrest := ih (check_temperature_step warn pauseT resumeT s t).1 hr'
          simp only [temperatureTrace, List.count_cons]
          simpa [hstep.2] using hrest
  · intro s temp hp hres
    unfold check_temperature_step at hres
    by_cases hle : temp ≤ resumeT
    · exact hle
    · exfalso
      rw [if_neg (by simp [hp]), if_neg (by simp [hle])] at hres
      split at hres
      · split at hres <;> simp_all
      · split at hres <;> simp_all
  · intro s illum
    unfold check_illumination_step
    split
    · rename_i hc; simpa using hc
    · split <;> rename_i hc <;> simp_all

/-- Witness for `interlock_hysteresis_amended` with thresholds 70/80/65
(temperature) and 50/30 (illumination), on the oscillating reading sequence
85, 75, 85 that never dips to the resume threshold 65. -/
theorem interlock_hysteresis_amended_witness :
    (temperatureTrace 70 80 65 { is_paused := false, warning_shown := false }
      [85, 75, 85]).2.count .paused ≤ 1 ∧
    ((check_illumination_step 50 30 { illumination_paused := true }
      35).1.illumination_paused = true ↔ (35 : Int) < 30) := by
  refine ⟨(interlock_hysteresis_amended 70 80 65 50 30).1 _ _ ?_,
    (interlock_hysteresis_amended 70 80 65 50 30).2.2 _ _⟩
  decide

/-! ## mosquito_detector.py — tiled inference (`_detect_tiled`) -/

/-- Python `int()` on a float: truncation toward zero, on a rational. -/
def pyInt (q : ℚ) : Int := if q < 0 then -(Int.floor (-q)) else Int.floor q

/-- Python `range(0, stop, step)` for `step ≥ 1`: the multiples of `step`
below `stop`. -/
def pyRange (stop step : Nat) : List Nat :=
  (List.range ((stop + step - 1) / step)).map (fun i => i * step)

/-- The tile stride of `_detect_tiled`:
`stride = max(1, int(tile * (1.0 - overlap)))`. -/
def tileStride (tile : Nat) (overlap : ℚ) : Nat :=
  max 1 (Int.toNat (pyInt (tile * (1 - overlap))))

/-- The window start offsets `_detect_tiled` generates along one axis of
length `dim`: `range(0, max(1, dim - tile + 1), stride)`, replaced by `[0]`
when empty, with `max(0, dim - tile)` appended when the last start differs
from it.  (In `ℕ`, `dim - tile` is already `max(0, dim - tile)` and
`dim - tile + 1` is already `max(1, dim - tile + 1)`.) -/
def tileStarts (dim tile stride : Nat) : List Nat :=
  let xs0 := pyRange (max 1 (dim - tile + 1)) stride
  let xs1 := if xs0.isEmpty then [0] else xs0
  if xs1.getLast? ≠ some (dim - tile) then xs1 ++ [dim - tile] else xs1

/-- Multiples of the step below `stop` belong to `pyRange stop step`. -/
theorem mul_mem_pyRange (stop step q : Nat) (hstep : 1 ≤ step)
    (h : q * step < stop) : q * step ∈ pyRange stop step := by
  refine List.mem_map.mpr ⟨q, List.mem_range.mpr ?_, rfl⟩
  have hd : (q + 1) * step = q * step + step := by ring
  have h2 : q + 1 ≤ (stop + step - 1) / step :=
    (Nat.le_div_iff_mul_le (by omega)).mpr (by rw [hd]; omega)
  omega

/-- Any in-range multiple of the stride is a generated window start. -/
theorem mul_mem_tileStarts (dim tile stride q : Nat) (hstride : 1 ≤ stride)
    (h : q * stride ≤ dim - tile) : q * stride ∈ tileStarts dim tile stride := by
  have h0 : q * stride ∈ pyRange (max 1 (dim - tile + 1)) stride :=
    mul_mem_pyRange _ _ _ hstride (by omega)
  simp only [tileStarts]
  split
  · rename_i he
    rw [List.isEmpty_iff] at he
    rw [he] at h0
    exact absurd h0 (List.not_mem_nil _)
  · split
    · exact List.mem_append_left _ h0
    · exact h0

/-- Helper: the element reported by `getLast?` is a member of the list. -/
theorem mem_of_getLast?_eq {α : Type} {l : List α} {a : α}
    (h : l.getLast? = some a) : a ∈ l := by
  obtain ⟨hne, rfl⟩ := List.mem_getLast?_eq_getLast
    (show a ∈ l.getLast? by rw [h]; rfl)
  exact List.getLast_mem hne

/-- The forced last start `dim - tile` is always generated. -/
theorem lastStart_mem_tileStarts (dim tile stride : Nat) :
    (dim - tile) ∈ tileStarts dim tile stride := by
  simp only [tileStarts]
  split
  · split
    · exact List.mem_append_right _ (by simp)
    · rename_i hne
      have h := not_ne_iff.mp hne
      exact mem_of_getLast?_eq h
  · split
    · exact List.mem_append_right _ (by simp)
    · rename_i hne
      have h := not_ne_iff.mp hne
      exact mem_of_getLast?_eq h

/-- The last generated window start is exactly `max(0, dim - tile)`. -/
theorem tileStarts_getLast (dim tile stride : Nat) :
    (tileStarts dim tile stride).getLast? = some (dim - tile) := by
  simp only [tileStarts]
  split
  · split
    · rename_i xs0 hne
      exact List.getLast?_append_cons _ (dim - tile) []
    · rename_i hne
      exact not_ne_iff.mp hne
  · split
    · rename_i hne
      exact List.getLast?_append_cons _ (dim - tile) []
    · rename_i hne
      exact not_ne_iff.mp hne

/-- The stride derived from an overlap in `[0, 1/2]` lies in `[1, tile]`. -/
theorem tileStride_bounds (tile : Nat) (overlap : ℚ) (ht : 1 ≤ tile)
    (ho0 : 0 ≤ overlap) (ho5 : overlap ≤ 1 / 2) :
    1 ≤ tileStride tile overlap ∧ tileStride tile overlap ≤ tile := by
  constructor
  · exact Nat.le_max_left 1 _
  · have hq0 : (0 : ℚ) ≤ tile * (1 - overlap) := by
      have h1 : (0 : ℚ) ≤ 1 - overlap := by linarith
      positivity
    have hqt : (tile : ℚ) * (1 - overlap) ≤ (tile : ℚ) := by
      have h1 : (1 : ℚ) - overlap ≤ 1 := by linarith
      nlinarith [show (0:ℚ) ≤ (tile:ℚ) from by positivity]
    have hfloor : Int.floor ((tile : ℚ) * (1 - overlap)) ≤ (tile : Int) := by
      calc Int.floor ((tile : ℚ) * (1 - overlap)) ≤ Int.floor ((tile : ℚ)) :=
            Int.floor_le_floor hqt
        _ = (tile : Int) := by exact_mod_cast Int.floor_natCast tile
    have hpy : pyInt ((tile : ℚ) * (1 - overlap)) = Int.floor ((tile : ℚ) * (1 - overlap)) := by
      unfold pyInt
      rw [if_neg (not_lt.mpr hq0)]
    unfold tileStride
    rw [hpy]
    omega

/-- One-axis coverage: every coordinate below `dim` lies inside at least one
generated window `[x0, min dim (x0 + tile))`. -/
theorem tileStarts_covers (dim tile stride : Nat) (ht : 1 ≤ tile)
    (hs1 : 1 ≤ stride) (hst : stride ≤ tile) (px : Nat) (hpx : px < dim) :
    ∃ x0 ∈ tileStarts dim tile stride, x0 ≤ px ∧ px < min dim (x0 + tile) := by
  have hmod := Nat.div_add_mod px stride
  have hmlt := Nat.mod_lt px (show 0 < stride by omega)
  set q := px / stride with hq
  have hcm : stride * q = q * stride := Nat.mul_comm _ _
  by_cases hcase : q * stride ≤ dim - tile
  · refine ⟨q * stride, mul_mem_tileStarts dim tile stride q hs1 hcase, by omega, ?_⟩
    rw [lt_min_iff]
    exact ⟨hpx, by omega⟩
  · refine ⟨dim - tile, lastStart_mem_tileStarts dim tile stride, by omega, ?_⟩
    rw [lt_min_iff]
    exact ⟨hpx, by omega⟩

/-- C3: for every frame of width and height at least 1, every tile size at
least 1 and every overlap in `[0, 1/2]`, the windows generated by
`_detect_tiled` (starts `tileStarts`, extents clipped to
`[x0, min dim (x0 + tile))` as in `patch = frame[y0:y1, x0:x1]`) cover every
pixel of the frame, and the last start in each axis is `max(0, dim − tile)`,
whose clipped far edge is exactly the frame's far edge. -/
theorem detect_tiled_covers (w h tile : Nat) (overlap : ℚ)
    (hw : 1 ≤ w) (hh : 1 ≤ h) (ht : 1 ≤ tile)
    (ho0 : 0 ≤ overlap) (ho5 : overlap ≤ 1 / 2) :
    (∀ px < w, ∀ py < h,
      ∃ x0 ∈ tileStarts w tile (tileStride tile overlap),
      ∃ y0 ∈ tileStarts h tile (tileStride tile overlap),
        x0 ≤ px ∧ px < min w (x0 + tile) ∧ y0 ≤ py ∧ py < min h (y0 + tile)) ∧
    (tileStarts w tile (tileStride tile overlap)).getLast? = some (w - tile) ∧
    (tileStarts h tile (tileStride tile overlap)).getLast? = some (h - tile) ∧
    min w (w - tile + tile) = w ∧ min h (h - tile + tile) = h := by
  obtain ⟨hs1, hst⟩ := tileStride_bounds tile overlap ht ho0 ho5
  refine ⟨?_, tileStarts_getLast w tile _, tileStarts_getLast h tile _,
    by omega, by omega⟩
  intro px hpx py hpy
  obtain ⟨x0, hx0m, hx0⟩ := tileStarts_covers w tile _ ht hs1 hst px hpx
  obtain ⟨y0, hy0m, hy0⟩ := tileStarts_covers h tile _ ht hs1 hst py hpy
  exact ⟨x0, hx0m, y0, hy0m, hx0.1, hx0.2, hy0.1, hy0.2⟩

/-- Witness for `detect_tiled_covers` on a 5×4 frame with tile 3 and
overlap 1/2 (stride 1), at pixel (4, 3). -/
theorem detect_tiled_covers_witness :
    (∃ x0 ∈ tileStarts 5 3 (tileStride 3 (1 / 2)),
     ∃ y0 ∈ tileStarts 4 3 (tileStride 3 (1 / 2)),
      x0 ≤ 4 ∧ 4 < min 5 (x0 + 3) ∧ y0 ≤ 3 ∧ 3 < min 4 (y0 + 3)) ∧
    (tileStarts 5 3 (tileStride 3 (1 / 2))).getLast? = some 2 := by
  have h := detect_tiled_covers 5 4 3 (1 / 2) (by decide) (by decide) (by decide)
    (by norm_num) (by norm_num)
  exact ⟨h.1 4 (by decide) 3 (by decide), h.2.1⟩

/-! ## mosquito_detector.py — global non-max suppression (`_nms`, `_iou`) -/

/-- A detection dict as produced by the detector: bounding box
`(x, y, w, h)`, center `(cx, cy)` and confidence. -/
structure Detection where
  bbox : Int × Int × Int × Int
  center : Int × Int
  confidence : ℚ
deriving DecidableEq, Repr

/-- `_nms`'s conversion of a detection's `(x, y, w, h)` box to corner form
`(x1, y1, x2, y2) = (x, y, x + w, y + h)`. -/
def detBox (d : Detection) : Int × Int × Int × Int :=
  match d.bbox with
  | (x, y, w, h) => (x, y, x + w, y + h)

/-- `MosquitoDetector._iou` on corner boxes. -/
def _iou (a b : Int × Int × Int × Int) : ℚ :=
  match a, b with
  | (ax1, ay1, ax2, ay2), (bx1, by1, bx2, by2) =>
    let inter_x1 := max ax1 bx1
    let inter_y1 := max ay1 by1
    let inter_x2 := min ax2 bx2
    let inter_y2 := min ay2 by2
    let inter_w := max 0 (inter_x2 - inter_x1)
    let inter_h := max 0 (inter_y2 - inter_y1)
    let inter := inter_w * inter_h
    let area_a := max 0 (ax2 - ax1) * max 0 (ay2 - ay1)
    let area_b := max 0 (bx2 - bx1) * max 0 (by2 - by1)
    let union := area_a + area_b - inter
    if union ≤ 0 then 0 else (inter : ℚ) / (union : ℚ)

/-- The sort key of `_nms`: descending confidence.  Python's
`list.sort(key=…, reverse=True)` and `List.mergeSort` are both stable, so
for this total preorder they produce the same list: descending confidence
with ties in first-seen order. -/
def nmsLE (a b : Detection) : Bool := decide (b.confidence ≤ a.confidence)

/-- Two detections are NMS-compatible when their IoU does not exceed the
threshold. -/
def nmsCompat (thresh : ℚ) (a b : Detection) : Prop :=
  ¬ _iou (detBox a) (detBox b) > thresh

/-- The suppression pass of `_nms` on the confidence-sorted list: keep the
first box, drop every later box whose IoU with it exceeds the threshold,
recurse on the remainder.  This is the loop of `_nms`: a kept index `i`
suppresses every not-yet-suppressed `j > i` with IoU above the threshold,
and suppressed entries are skipped. -/
def nmsAux (thresh : ℚ) (l : List Detection) : List Detection :=
  match l with
  | [] => []
  | d :: rest =>
      d :: nmsAux thresh
        (rest.filter fun c => !decide (_iou (detBox d) (detBox c) > thresh))
termination_by l.length
decreasing_by
  simp only [List.length_cons]
  have := List.length_filter_le
    (fun c => !decide (_iou (detBox d) (detBox c) > thresh)) rest
  omega

/-- `MosquitoDetector._nms`: sort by descending confidence (stable), then
run the greedy suppression pass. -/
def _nms (detections : List Detection) (iou_thresh : ℚ) : List Detection :=
  if detections.isEmpty then []
  else nmsAux iou_thresh (detections.mergeSort nmsLE)

/-- The suppression pass returns a sublist of its input. -/
theorem nmsAux_sublist (t : ℚ) (l : List Detection) : List.Sublist (nmsAux t l) l := by
  generalize hn : l.length = n
  induction n using Nat.strong_induction_on generalizing l with
  | _ n ih =>
    cases l with
    | nil => simp [nmsAux]
    | cons d rest =>
      simp only [nmsAux]
      refine List.Sublist.cons₂ d ?_
      have hle := List.length_filter_le
        (fun c => !decide (_iou (detBox d) (detBox c) > t)) rest
      have hlen : (rest.filter fun c => !decide (_iou (detBox d) (detBox c) > t)).length
          < n := by simp only [List.length_cons] at hn; omega
      exact (ih _ hlen _ rfl).trans (List.filter_sublist rest)

/-- No survivor of the suppression pass has IoU above the threshold with
a later survivor. -/
theorem nmsAux_pairwise (t : ℚ) (l : List Detection) :
    (nmsAux t l).Pairwise (nmsCompat t) := by
  generalize hn : l.length = n
  induction n using Nat.strong_induction_on generalizing l with
  | _ n ih =>
    cases l with
    | nil => simp [nmsAux]
    | cons d rest =>
      simp only [nmsAux]
      rw [List.pairwise_cons]
      have hle := List.length_filter_le
        (fun c => !decide (_iou (detBox d) (detBox c) > t)) rest
      have hlen : (rest.filter fun c => !decide (_iou (detBox d) (detBox c) > t)).length
          < n := by simp only [List.length_cons] at hn; omega
      refine ⟨fun c hc => ?_, ih _ hlen _ rfl⟩
      have hmem := (nmsAux_sublist t _).subset hc
      have := (List.mem_filter.mp hmem).2
      simpa [nmsCompat] using this

/-- The suppression pass fixes every pairwise-compatible list. -/
theorem nmsAux_of_pairwise (t : ℚ) (l : List Detection)
    (h : l.Pairwise (nmsCompat t)) : nmsAux t l = l := by
  induction l with
  | nil => simp [nmsAux]
  | cons d rest ih =>
    rw [List.pairwise_cons] at h
    have hf : (rest.filter fun c => !decide (_iou (detBox d) (detBox c) > t)) = rest := by
      refine List.filter_eq_self.mpr fun c hc => ?_
      simpa [nmsCompat] using h.1 c hc
    simp only [nmsAux, hf, ih h.2]

/-- `nmsLE` is transitive. -/
theorem nmsLE_trans (a b c : Detection) (hab : nmsLE a b) (hbc : nmsLE b c) :
    nmsLE a c := by
  simp only [nmsLE, decide_eq_true_eq] at *
  exact le_trans hbc hab

/-- `nmsLE` is total. -/
theorem nmsLE_total (a b : Detection) : nmsLE a b || nmsLE b a := by
  simp only [nmsLE, Bool.or_eq_true, decide_eq_true_eq]
  exact le_total b.confidence a.confidence

/-- Unfolding `_nms` on a nonempty input. -/
theorem _nms_of_not_isEmpty (l : List Detection) (t : ℚ)
    (h : l.isEmpty = false) : _nms l t = nmsAux t (l.mergeSort nmsLE) := by
  unfold _nms
  rw [h]
  rfl

/-- C4: `_nms` is idempotent — running the merge a second time on its own
output returns the output unchanged — and no two surviving detections have
IoU above the threshold with each other (in kept order). -/
theorem nms_idempotent (dets : List Detection) (t : ℚ) :
    _nms (_nms dets t) t = _nms dets t ∧
    (_nms dets t).Pairwise (nmsCompat t) := by
  by_cases hd : dets.isEmpty
  · simp [_nms, hd]
  · have hd' : dets.isEmpty = false := by
      cases h : dets.isEmpty
      · rfl
      · exact absurd h hd
    have hout : _nms dets t = nmsAux t (dets.mergeSort nmsLE) :=
      _nms_of_not_isEmpty dets t hd'
    have hsorted : (dets.mergeSort nmsLE).Pairwise (fun a b => nmsLE a b = true) :=
      List.sorted_mergeSort nmsLE_trans (fun a b => nmsLE_total a b) dets
    have hsorted_out : (_nms dets t).Pairwise (fun a b => nmsLE a b = true) := by
      rw [hout]
      exact List.Pairwise.sublist (nmsAux_sublist t _) hsorted
    have hpair : (_nms dets t).Pairwise (nmsCompat t) := by
      rw [hout]; exact nmsAux_pairwise t _
    refine ⟨?_, hpair⟩
    by_cases he : (_nms dets t).isEmpty
    · rw [List.isEmpty_iff] at he
      rw [he]
      rfl
    · have he' : (_nms dets t).isEmpty = false := by
        cases h : (_nms dets t).isEmpty
        · rfl
        · exact absurd h he
      rw [_nms_of_not_isEmpty _ t he', List.mergeSort_of_sorted hsorted_out,
        nmsAux_of_pairwise t _ hpair]

/-! ## depth_estimator.py -/

/-- Python list slice `l[lo:hi]` (with clamped nonnegative bounds). -/
def pySlice {α : Type} (lo hi : Nat) (l : List α) : List α :=
  (l.drop lo).take (hi - lo)

/-- NumPy window slice `m[ymin:ymax, xmin:xmax]` on a row-major matrix. -/
def windowSlice (ymin ymax xmin xmax : Nat) (m : List (List ℚ)) : List (List ℚ) :=
  (pySlice ymin ymax m).map (pySlice xmin xmax)

/-- `np.median`: the middle element of the sorted data for odd length, the
mean of the two middle elements for even length. -/
def npMedian (l : List ℚ) : ℚ :=
  let s := l.mergeSort (fun a b => decide (a ≤ b))
  let n := s.length
  if n % 2 = 1 then s.getD (n / 2) 0
  else (s.getD (n / 2 - 1) 0 + s.getD (n / 2) 0) / 2

/-- `DepthEstimator.estimate_depth`: `Z = f·B/d` in mm, converted to metres;
`None` for non-positive disparity. -/
def estimate_depth (focal_length_px baseline disparity : ℚ) : Option ℚ :=
  if disparity ≤ 0 then none
  else some (focal_length_px * baseline / disparity / 1000)

/-- The sampling window of `estimate_depth_at_point`, flattened:
`disparity_map[max(0,y-hw) : min(h,y+hw+1), max(0,x-hw) : min(w,x+hw+1)]`
with `hw = window_size // 2`.  Slice bounds are clamped at 0 (the in-range
guard and nonnegative window sizes of the callers keep them nonnegative, so
Python's negative-index wrapping is never exercised). -/
def depthWindow (m : List (List ℚ)) (h w : Nat) (x y window_size : Int) :
    List ℚ :=
  let half_window := Int.fdiv window_size 2
  let y_min := (max 0 (y - half_window)).toNat
  let y_max := min h (y + half_window + 1).toNat
  let x_min := (max 0 (x - half_window)).toNat
  let x_max := min w (x + half_window + 1).toNat
  (windowSlice y_min y_max x_min x_max m).flatten

/-- `window_disparity[window_disparity > 0]`: the strictly positive samples
of the window. -/
def validDisparities (m : List (List ℚ)) (h w : Nat) (x y window_size : Int) :
    List ℚ :=
  (depthWindow m h w x y window_size).filter (fun d => decide (0 < d))

/-- `DepthEstimator.estimate_depth_at_point` from the disparity map onward:
reject out-of-range points, collect the valid disparities of the sampling
window, return `None` when there are none, and otherwise the depth computed
from their median.  The `valid_ratio < 0.3` check in the source only emits a
debug log and does not alter the result. -/
def estimate_depth_at_point (focal_length_px baseline : ℚ)
    (m : List (List ℚ)) (h w : Nat) (x y window_size : Int) : Option ℚ :=
  if x < 0 ∨ (w : Int) ≤ x ∨ y < 0 ∨ (h : Int) ≤ y then none
  else if (validDisparities m h w x y window_size).isEmpty then none
  else estimate_depth focal_length_px baseline
    (npMedian (validDisparities m h w x y window_size))

/-- The dict returned by `estimate_depth_for_detection`. -/
structure DepthInfo where
  depth : ℚ
  center : Int × Int
  distance_cm : ℚ
  real_width_mm : ℚ
  real_height_mm : ℚ
  object_size_mm : ℚ
deriving DecidableEq, Repr

/-- `DepthEstimator.estimate_depth_for_detection`: sample the depth at the
bbox center with a window of half the smaller bbox side, then derive the
physical size as `bbox_px * depth * 10000 / focal_length_px` on each side
(exactly the source's expression, `depth` in metres) and keep the larger
side as `object_size_mm`. -/
def estimate_depth_for_detection (focal_length_px baseline : ℚ)
    (m : List (List ℚ)) (h w : Nat) (bbox : Int × Int × Int × Int) :
    Option DepthInfo :=
  match bbox with
  | (x1, y1, x2, y2) =>
    let center_x := Int.fdiv (x1 + x2) 2
    let center_y := Int.fdiv (y1 + y2) 2
    let window_size := Int.fdiv (min (x2 - x1) (y2 - y1)) 2
    match estimate_depth_at_point focal_length_px baseline m h w
        center_x center_y window_size with
    | none => none
    | some depth =>
      let bbox_width_px := x2 - x1
      let bbox_height_px := y2 - y1
      let real_width_mm := (bbox_width_px : ℚ) * depth * 10000 / focal_length_px
      let real_height_mm := (bbox_height_px : ℚ) * depth * 10000 / focal_length_px
      let object_size_mm := max real_width_mm real_height_mm
      some { depth := depth, center := (center_x, center_y),
             distance_cm := depth * 100,
             real_width_mm := real_width_mm,
             real_height_mm := real_height_mm,
             object_size_mm := object_size_mm }

/-- Modelled from the spec (for comparison with the code): the physical-size
formula exactly as the spec states it, `object_size_mm = bbox_px * depth_mm /
focal_length_px` taken on the larger bounding-box side, with
`depth_mm = 1000 * depth_m`. -/
def object_size_mm_fromSpec (bbox_w bbox_h : Int) (depth_m focal_length_px : ℚ) : ℚ :=
  max ((bbox_w : ℚ) * (1000 * depth_m) / focal_length_px)
      ((bbox_h : ℚ) * (1000 * depth_m) / focal_length_px)

/-- The keep/drop decision of `process_frame`'s depth block: detections whose
depth could not be resolved are kept (graceful fallback), depth-resolved
detections are kept exactly when their `object_size_mm` lies within
`[min_mosquito_size_mm, max_mosquito_size_mm]`. -/
def process_frame_depth_filter (min_mm max_mm : ℚ)
    (dets : List (Detection × Option DepthInfo)) : List Detection :=
  (dets.filter fun dc =>
    match dc.2 with
    | some info => decide (min_mm ≤ info.object_size_mm ∧ info.object_size_mm ≤ max_mm)
    | none => true).map Prod.fst

/-- A 5×5 disparity map whose only positive sample (disparity 4) sits at
row 1, column 2. -/
def dmap0 : List (List ℚ) :=
  [[0, 0, 0, 0, 0],
   [0, 0, 4, 0, 0],
   [0, 0, 0, 0, 0],
   [0, 0, 0, 0, 0],
   [0, 0, 0, 0, 0]]

/-- C6: at a concrete input where depth resolves to 30 m — bbox
`(0, 0, 4, 2)` on `dmap0` with `focal_length_px = 1000`, `baseline = 120` —
the code's `object_size_mm` is 1200 while the spec formula
`bbox_px * depth_mm / focal_length_px` gives 120: the source multiplies by
10000 where its own `m -> mm` comment calls for 1000, a factor-10
divergence. -/
theorem object_size_uses_wrong_unit_factor :
    (estimate_depth_for_detection 1000 120 dmap0 5 5 (0, 0, 4, 2)).map
      DepthInfo.depth = some 30 ∧
    (estimate_depth_for_detection 1000 120 dmap0 5 5 (0, 0, 4, 2)).map
      DepthInfo.object_size_mm = some 1200 ∧
    object_size_mm_fromSpec 4 2 30 1000 = 120 ∧
    (1200 : ℚ) = 10 * 120 := by
  have hv : validDisparities dmap0 5 5 2 1 1 = [4] := by decide
  have hmed : npMedian [(4 : ℚ)] = 4 := by
    simp [npMedian, List.mergeSort_singleton]
  have hpoint : estimate_depth_at_point 1000 120 dmap0 5 5 2 1 1 = some 30 := by
    unfold estimate_depth_at_point
    rw [if_neg (by decide), hv, hmed]
    norm_num [estimate_depth]
  have h1 : Int.fdiv ((0 : Int) + 4) 2 = 2 := by decide
  have h2 : Int.fdiv ((0 : Int) + 2) 2 = 1 := by decide
  have h3 : Int.fdiv (min ((4 : Int) - 0) (2 - 0)) 2 = 1 := by decide
  refine ⟨?_, ?_, ?_, by norm_num⟩
  · unfold estimate_depth_for_detection
    dsimp only
    rw [h1, h2, h3, hpoint]
    rfl
  · unfold estimate_depth_for_detection
    dsimp only
    rw [h1, h2, h3, hpoint]
    show some (((4 - 0 : Int) : ℚ) * 30 * 10000 / 1000 ⊔
      ((2 - 0 : Int) : ℚ) * 30 * 10000 / 1000) = some 1200
    congr 1
    rw [show ((4 - 0 : Int) : ℚ) * 30 * 10000 / 1000 = 1200 by norm_num,
      show ((2 - 0 : Int) : ℚ) * 30 * 10000 / 1000 = 600 by norm_num]
    exact max_eq_left (by norm_num)
  · unfold object_size_mm_fromSpec
    norm_num

/-- C7 counterexample: at point (2, 2) of `dmap0` with window size 5, only
1 of the 25 window samples is a valid disparity — a valid fraction of 1/25,
far below the 30% minimum — yet `estimate_depth_at_point` still returns a
depth (the ratio check in the source only logs). -/
theorem depth_returned_despite_low_valid_fraction :
    estimate_depth_at_point 1000 120 dmap0 5 5 2 2 5 = some 30 ∧
    ((validDisparities dmap0 5 5 2 2 5).length : ℚ) /
      ((depthWindow dmap0 5 5 2 2 5).length : ℚ) < 3 / 10 := by
  have hv : validDisparities dmap0 5 5 2 2 5 = [4] := by decide
  have hmed : npMedian [(4 : ℚ)] = 4 := by
    simp [npMedian, List.mergeSort_singleton]
  have hwin : (depthWindow dmap0 5 5 2 2 5).length = 25 := by decide
  constructor
  · unfold estimate_depth_at_point
    rw [if_neg (by decide), hv, hmed]
    norm_num [estimate_depth]
  · rw [hv, hwin]
    norm_num

/-- The median of a nonempty list of positive rationals is positive. -/
theorem npMedian_pos (l : List ℚ) (hne : l ≠ []) (hall : ∀ a ∈ l, 0 < a) :
    0 < npMedian l := by
  unfold npMedian
  set s := l.mergeSort (fun a b => decide (a ≤ b)) with hs
  have hperm : s.Perm l := List.mergeSort_perm l _
  have hlen : s.length = l.length := hperm.length_eq
  have hlpos : 0 < l.length := List.length_pos.mpr hne
  have hmem : ∀ i, i < s.length → 0 < s.getD i 0 := by
    intro i hi
    rw [List.getD_eq_getElem s 0 hi]
    exact hall _ (hperm.subset (List.getElem_mem hi))
  dsimp only
  split
  · exact hmem _ (by omega)
  · have h1 := hmem (s.length / 2 - 1) (by omega)
    have h2 := hmem (s.length / 2) (by omega)
    linarith

/-- C7 (amended): for an in-range point and nonnegative window size,
`estimate_depth_at_point` reports no depth exactly when the window holds no
valid (positive) disparity — never an error — and otherwise returns the
depth computed from the median of all the valid disparities (regardless of
their fraction of the window, which the source only logs about); a
detection whose depth is unavailable is kept by `process_frame`'s depth
filter (fallback to pixel-only filtering). -/
theorem estimate_depth_at_point_amended (fpx B : ℚ) (m : List (List ℚ))
    (h w : Nat) (x y ws : Int)
    (hx0 : 0 ≤ x) (hxw : x < (w : Int)) (hy0 : 0 ≤ y) (hyh : y < (h : Int)) :
    (estimate_depth_at_point fpx B m h w x y ws = none ↔
      validDisparities m h w x y ws = []) ∧
    (validDisparities m h w x y ws ≠ [] →
      estimate_depth_at_point fpx B m h w x y ws =
        some (fpx * B / npMedian (validDisparities m h w x y ws) / 1000)) ∧
    (∀ (mn mx : ℚ) (d : Detection) (l : List (Detection × Option DepthInfo)),
      (d, none) ∈ l → d ∈ process_frame_depth_filter mn mx l) := by
  have hguard : ¬ (x < 0 ∨ (w : Int) ≤ x ∨ y < 0 ∨ (h : Int) ≤ y) := by
    push_neg
    exact ⟨hx0, hxw, hy0, hyh⟩
  have hpos : ∀ a ∈ validDisparities m h w x y ws, 0 < a := by
    intro a ha
    have := (List.mem_filter.mp ha).2
    simpa using this
  have hkeep : ∀ (mn mx : ℚ) (d : Detection)
      (l : List (Detection × Option DepthInfo)),
      (d, none) ∈ l → d ∈ process_frame_depth_filter mn mx l := by
    intro mn mx d l hdl
    unfold process_frame_depth_filter
    refine List.mem_map.mpr ⟨(d, none), ?_, rfl⟩
    exact List.mem_filter.mpr ⟨hdl, rfl⟩
  by_cases hv : validDisparities m h w x y ws = []
  · refine ⟨?_, fun hne => absurd hv hne, hkeep⟩
    unfold estimate_depth_at_point
    rw [if_neg hguard]
    simp [hv]
  · have hmed : 0 < npMedian (validDisparities m h w x y ws) :=
      npMedian_pos _ hv hpos
    have hres : estimate_depth_at_point fpx B m h w x y ws =
        some (fpx * B / npMedian (validDisparities m h w x y ws) / 1000) := by
      unfold estimate_depth_at_point
      rw [if_neg hguard]
      have hemp : (validDisparities m h w x y ws).isEmpty = false := by
        cases hiso : (validDisparities m h w x y ws).isEmpty
        · rfl
        · exact absurd (List.isEmpty_iff.mp hiso) hv
      simp only [hemp, Bool.false_eq_true, if_false]
      unfold estimate_depth
      rw [if_neg (not_le.mpr hmed)]
    refine ⟨?_, fun _ => hres, hkeep⟩
    rw [hres]
    simp [hv]

/-- Witness for `estimate_depth_at_point_amended` on `dmap0` at the in-range
point (2, 2) with window size 5, whose window holds one valid disparity. -/
theorem estimate_depth_at_point_amended_witness :
    estimate_depth_at_point 1000 120 dmap0 5 5 2 2 5 =
      some (1000 * 120 / npMedian (validDisparities dmap0 5 5 2 2 5) / 1000) := by
  exact (estimate_depth_at_point_amended 1000 120 dmap0 5 5 2 2 5
    (by decide) (by decide) (by decide) (by decide)).2.1 (by decide)

/-! ## mosquito_tracker.py -/

/-- The fields of `MosquitoTracker` that `track_mosquito` reads or writes,
together with the configuration values it uses. -/
structure TrackerState where
  tracking_active : Bool
  locked_target_position : Option (Int × Int)
  last_detection_time : ℚ
  last_beep_time : ℚ
  no_detection_timeout : ℚ
  target_lock_distance : ℚ
  beep_cooldown : ℚ
  pan_gain : ℚ
  tilt_gain : ℚ
  camera_width : Int
  camera_height : Int
deriving DecidableEq, Repr

/-- The controller/buzzer actions `track_mosquito` dispatches. -/
inductive TrackAction where
  | beep
  | homeCmd
  | moveBy (pan_delta tilt_delta : Int)
deriving DecidableEq, Repr

/-- Squared Euclidean pixel distance, `(Δx)² + (Δy)²`; the source compares
`np.sqrt` of this, which is order-equivalent. -/
def dist2 (p q : Int × Int) : Int :=
  (p.1 - q.1) * (p.1 - q.1) + (p.2 - q.2) * (p.2 - q.2)

/-- The loop of `_find_closest_detection`: scan the detections, keeping the
first strict minimiser of the distance to the target position.  The
`min_distance = inf` start is the `none` accumulator; comparisons between
two `np.sqrt` values are rendered on the squared distances. -/
def closestScan (t : Int × Int) : List Detection → Option (Detection × Int) →
    Option (Detection × Int)
  | [], acc => acc
  | d :: ds, acc =>
    match acc with
    | none => closestScan t ds (some (d, dist2 d.center t))
    | some (c, m) =>
      if dist2 d.center t < m then closestScan t ds (some (d, dist2 d.center t))
      else closestScan t ds (some (c, m))

/-- `MosquitoTracker._find_closest_detection`: `None` for an empty detection
list or absent target; otherwise the first-found closest detection provided
its distance is below `target_lock_distance` — `np.sqrt m < t` is rendered
as `0 < t ∧ m < t·t`. -/
def _find_closest_detection (target_lock_distance : ℚ)
    (detections : List Detection) (target_position : Option (Int × Int)) :
    Option Detection :=
  match target_position with
  | none => none
  | some t =>
    if detections.isEmpty then none
    else
      match closestScan t detections none with
      | some (c, m) =>
        if 0 < target_lock_distance ∧
            (m : ℚ) < target_lock_distance * target_lock_distance then some c
        else none
      | none => none

/-- `MosquitoDetector.get_largest_detection`: Python's `max(…, key=conf)` —
the first detection of maximal confidence (replacement only on a strictly
greater key). -/
def get_largest_detection : List Detection → Option Detection
  | [] => none
  | d :: ds =>
    some (ds.foldl (fun m x => if m.confidence < x.confidence then x else m) d)

/-- `MosquitoTracker.calculate_target_angles`: proportional control from the
pixel error to pan/tilt deltas (`int()` truncates toward zero, `//` is floor
division). -/
def calculate_target_angles (st : TrackerState) (target_x target_y : Int) :
    Int × Int :=
  let center_x := Int.fdiv st.camera_width 2
  let center_y := Int.fdiv st.camera_height 2
  let error_x := target_x - center_x
  let error_y := target_y - center_y
  (pyInt ((error_x : ℚ) * st.pan_gain), pyInt ((-(error_y : ℚ)) * st.tilt_gain))

/-- Strategy 2 of `track_mosquito` (no active lock): the highest-confidence
detection over both cameras, starting from `best_confidence = 0` (so only
strictly positive confidences are ever selected); the boolean is
`use_left_camera`. -/
def bestConfSelect (left_detections right_detections : List Detection) :
    Option (Detection × Bool) :=
  let s1 : Option (Detection × Bool) × ℚ :=
    match get_largest_detection left_detections with
    | some lb => if 0 < lb.confidence then (some (lb, true), lb.confidence)
                 else (none, 0)
    | none => (none, 0)
  match get_largest_detection right_detections with
  | some rb => if s1.2 < rb.confidence then some (rb, false) else s1.1
  | none => s1.1

/-- The target-selection phase of `track_mosquito`.  While locked, the
per-camera nearest-within-lock-distance candidates are computed and the
higher-confidence one chosen (left wins ties); only when neither camera has
a nearby candidate is the stored lock position cleared (second component
`true`) and global best-confidence selection used. -/
def selectTarget (st : TrackerState)
    (left_detections right_detections : List Detection) :
    Option (Detection × Bool) × Bool :=
  if st.tracking_active = true ∧ st.locked_target_position ≠ none then
    match _find_closest_detection st.target_lock_distance left_detections
            st.locked_target_position,
          _find_closest_detection st.target_lock_distance right_detections
            st.locked_target_position with
    | some lc, some rc =>
      if rc.confidence ≤ lc.confidence then (some (lc, true), false)
      else (some (rc, false), false)
    | some lc, none => (some (lc, true), false)
    | none, some rc => (some (rc, false), false)
    | none, none => (bestConfSelect left_detections right_detections, true)
  else (bestConfSelect left_detections right_detections, false)

/-- `MosquitoTracker.track_mosquito`: select a target, update the lock state
and timers, and dispatch buzzer / home / relative-move actions exactly as
the source does. -/
def track_mosquito (st : TrackerState)
    (left_detections right_detections : List Detection) (current_time : ℚ) :
    TrackerState × List TrackAction :=
  match selectTarget st left_detections right_detections with
  | (some (best, _use_left), _) =>
    let st1 := { st with last_detection_time := current_time }
    let step2 : TrackerState × List TrackAction :=
      if st1.tracking_active = false then
        if st1.beep_cooldown < current_time - st1.last_beep_time then
          ({ st1 with tracking_active := true, last_beep_time := current_time },
            [TrackAction.beep])
        else ({ st1 with tracking_active := true }, [])
      else (st1, [])
    let st3 := { step2.1 with locked_target_position := some best.center }
    let deltas := calculate_target_angles st3 best.center.1 best.center.2
    if 2 < |deltas.1| ∨ 2 < |deltas.2| then
      (st3, step2.2 ++ [TrackAction.moveBy deltas.1 deltas.2])
    else (st3, step2.2)
  | (none, cleared) =>
    let st1 := if cleared then { st with locked_target_position := none } else st
    if st1.tracking_active = true then
      if st1.no_detection_timeout < current_time - st1.last_detection_time then
        ({ st1 with tracking_active := false, locked_target_position := none },
          [TrackAction.homeCmd])
      else (st1, [])
    else (st1, [])

/-- With no detections at all, `selectTarget` selects nothing; the stored
lock position is cleared exactly when a lock was active. -/
theorem selectTarget_empty (st : TrackerState) :
    selectTarget st [] [] =
      (none, if st.tracking_active = true ∧ st.locked_target_position ≠ none
             then true else false) := by
  unfold selectTarget
  split
  · rename_i hc
    cases hlp : st.locked_target_position with
    | none => exact absurd hlp hc.2
    | some p =>
      simp only [_find_closest_detection, hlp, List.isEmpty_nil, if_true]
      simp [bestConfSelect, get_largest_detection]
  · simp [bestConfSelect, get_largest_detection]

/-- Behaviour of `track_mosquito` on a frame with no detections while a
track is active: past the timeout it unlocks, goes `Scanning` and issues
exactly one home action; before the timeout it stays active and issues
nothing, but the stored lock position is cleared. -/
theorem track_mosquito_empty (st : TrackerState) (now : ℚ)
    (ha : st.tracking_active = true) :
    (st.no_detection_timeout < now - st.last_detection_time →
      track_mosquito st [] [] now =
        ({ st with tracking_active := false, locked_target_position := none },
          [TrackAction.homeCmd])) ∧
    (¬ st.no_detection_timeout < now - st.last_detection_time →
      track_mosquito st [] [] now =
        ({ st with locked_target_position := none }, [])) := by
  have hsel := selectTarget_empty st
  cases st with
  | mk ta lp ldt lbt ndt tld bc pg tg cw ch =>
    simp only at ha
    subst ha
    cases lp with
    | none =>
      simp only [ne_eq, not_true_eq_false, and_false, if_neg, not_false_eq_true,
        and_true, reduceCtorEq] at hsel
      constructor <;> intro h
      · simp [track_mosquito, hsel, h]
      · simp [track_mosquito, hsel, h]
    | some p =>
      simp only [ne_eq, reduceCtorEq, not_false_eq_true, and_self, if_true,
        true_and] at hsel
      constructor <;> intro h
      · simp [track_mosquito, hsel, h]
      · simp [track_mosquito, hsel, h]

/-- An active lock at (100, 100): timeout 2 s, lock distance 100 px,
last detection at t = 0. -/
def trk0 : TrackerState :=
  { tracking_active := true, locked_target_position := some (100, 100),
    last_detection_time := 0, last_beep_time := 0, no_detection_timeout := 2,
    target_lock_distance := 100, beep_cooldown := 5, pan_gain := 1/10,
    tilt_gain := 1/10, camera_width := 640, camera_height := 480 }

/-- C2 counterexample: on an empty frame 1 s after the last detection — a
gap shorter than the 2 s timeout — `track_mosquito` keeps `tracking_active`
and issues no home action, but it clears the stored locked position, so the
lock state is not left unchanged. -/
theorem short_gap_clears_locked_position :
    (track_mosquito trk0 [] [] 1).1.tracking_active = true ∧
    (track_mosquito trk0 [] [] 1).2 = [] ∧
    ¬ trk0.no_detection_timeout < 1 - trk0.last_detection_time ∧
    (track_mosquito trk0 [] [] 1).1.locked_target_position ≠
      trk0.locked_target_position := by
  have hlt : ¬ trk0.no_detection_timeout < 1 - trk0.last_detection_time := by
    norm_num [trk0]
  have h := (track_mosquito_empty trk0 1 rfl).2 hlt
  refine ⟨?_, ?_, hlt, ?_⟩
  · rw [h]
    rfl
  · rw [h]
  · rw [h]
    simp [trk0]

/-- C2 (amended): while a track is active and a frame carries no detection
at all, `track_mosquito` transitions to Scanning (`tracking_active` false,
locked position cleared) with exactly one return-to-home action when the
elapsed gap exceeds `no_detection_timeout`; a shorter gap keeps
`tracking_active` true and issues no action, though the stored locked
position is cleared on the first such frame. -/
theorem timeout_unlock_amended (st : TrackerState) (now : ℚ)
    (ha : st.tracking_active = true) :
    (st.no_detection_timeout < now - st.last_detection_time →
      track_mosquito st [] [] now =
        ({ st with tracking_active := false, locked_target_position := none },
          [TrackAction.homeCmd])) ∧
    (¬ st.no_detection_timeout < now - st.last_detection_time →
      track_mosquito st [] [] now =
        ({ st with locked_target_position := none }, [])) :=
  track_mosquito_empty st now ha

/-- Witness for `timeout_unlock_amended`: at t = 10, well past the 2 s
timeout, the tracker unlocks and homes exactly once. -/
theorem timeout_unlock_amended_witness :
    track_mosquito trk0 [] [] 10 =
      ({ trk0 with tracking_active := false, locked_target_position := none },
        [TrackAction.homeCmd]) :=
  (timeout_unlock_amended trk0 10 rfl).1 (by norm_num [trk0])

/-- The scan of `_find_closest_detection`, started on an accumulator whose
distance matches its candidate, ends on the first minimiser over the
accumulator and the scanned detections. -/
theorem closestScan_acc_spec (t : Int × Int) (ds : List Detection)
    (c : Detection) (m : Int) (hm : m = dist2 c.center t) :
    ∃ c1, closestScan t ds (some (c, m)) = some (c1, dist2 c1.center t) ∧
      (c1 = c ∨ c1 ∈ ds) ∧ dist2 c1.center t ≤ m ∧
      ∀ x ∈ ds, dist2 c1.center t ≤ dist2 x.center t := by
  induction ds generalizing c m with
  | nil => exact ⟨c, by rw [hm]; rfl, Or.inl rfl, le_of_eq hm.symm, by simp⟩
  | cons d ds ih =>
    by_cases hlt : dist2 d.center t < m
    · obtain ⟨c1, hscan, hmem, hle, hall⟩ := ih d (dist2 d.center t) rfl
      refine ⟨c1, ?_, ?_, ?_, ?_⟩
      · simpa [closestScan, hlt] using hscan
      · rcases hmem with h | h
        · exact Or.inr (h ▸ List.mem_cons_self d ds)
        · exact Or.inr (List.mem_cons_of_mem d h)
      · omega
      · intro x hx
        rcases List.mem_cons.mp hx with h | h
        · rw [h]; exact hle
        · exact hall x h
    · obtain ⟨c1, hscan, hmem, hle, hall⟩ := ih c m hm
      refine ⟨c1, ?_, ?_, hle, ?_⟩
      · simpa [closestScan, hlt] using hscan
      · rcases hmem with h | h
        · exact Or.inl h
        · exact Or.inr (List.mem_cons_of_mem d h)
      · intro x hx
        rcases List.mem_cons.mp hx with h | h
        · rw [h]; omega
        · exact hall x h

/-- Run from the empty accumulator on a nonempty list, the scan yields a
member minimising the distance to the target. -/
theorem closestScan_none_spec (t : Int × Int) (d : Detection)
    (ds : List Detection) :
    ∃ c1, closestScan t (d :: ds) none = some (c1, dist2 c1.center t) ∧
      c1 ∈ d :: ds ∧ ∀ x ∈ d :: ds, dist2 c1.center t ≤ dist2 x.center t := by
  obtain ⟨c1, hscan, hmem, hle, hall⟩ := closestScan_acc_spec t ds d
    (dist2 d.center t) rfl
  refine ⟨c1, by simpa [closestScan] using hscan, ?_, ?_⟩
  · rcases hmem with h | h
    · exact h ▸ List.mem_cons_self d ds
    · exact List.mem_cons_of_mem d h
  · intro x hx
    rcases List.mem_cons.mp hx with h | h
    · rw [h]; exact hle
    · exact hall x h

/-- When `_find_closest_detection` returns a detection, it is a member of
the list, it lies strictly within the lock distance, and no member is
closer to the target position. -/
theorem _find_closest_detection_spec (tld : ℚ) (ds : List Detection)
    (p : Int × Int) (d : Detection)
    (h : _find_closest_detection tld ds (some p) = some d) :
    d ∈ ds ∧ 0 < tld ∧ ((dist2 d.center p : Int) : ℚ) < tld * tld ∧
    ∀ x ∈ ds, dist2 d.center p ≤ dist2 x.center p := by
  cases ds with
  | nil => simp [_find_closest_detection] at h
  | cons d0 ds =>
    obtain ⟨c1, hscan, hmem, hall⟩ := closestScan_none_spec p d0 ds
    simp only [_find_closest_detection, List.isEmpty_cons, Bool.false_eq_true,
      if_false, hscan] at h
    split at h
    · rename_i hcond
      cases h
      exact ⟨hmem, hcond.1, hcond.2, hall⟩
    · exact absurd h (by simp)

/-- When some detection lies strictly within the lock distance,
`_find_closest_detection` returns one. -/
theorem _find_closest_detection_exists (tld : ℚ) (ds : List Detection)
    (p : Int × Int)
    (hex : ∃ x ∈ ds, 0 < tld ∧ ((dist2 x.center p : Int) : ℚ) < tld * tld) :
    ∃ d, _find_closest_detection tld ds (some p) = some d := by
  obtain ⟨x, hx, hpos, hlt⟩ := hex
  cases ds with
  | nil => exact absurd hx (List.not_mem_nil x)
  | cons d0 ds =>
    obtain ⟨c1, hscan, hmem, hall⟩ := closestScan_none_spec p d0 ds
    refine ⟨c1, ?_⟩
    simp only [_find_closest_detection, List.isEmpty_cons, Bool.false_eq_true,
      if_false, hscan]
    rw [if_pos ⟨hpos, lt_of_le_of_lt (by exact_mod_cast hall x hx) hlt⟩]

/-- A frame on which `selectTarget` picks a target updates the stored locked
position to that target's center, whatever else happens. -/
theorem track_mosquito_locked_update (st : TrackerState)
    (l r : List Detection) (now : ℚ) (best : Detection) (ul cl : Bool)
    (hsel : selectTarget st l r = (some (best, ul), cl)) :
    (track_mosquito st l r now).1.locked_target_position = some best.center := by
  unfold track_mosquito
  rw [hsel]
  dsimp only
  rw [apply_ite (fun q : TrackerState × List TrackAction =>
    q.1.locked_target_position)]
  dsimp only
  exact ite_self _

/-- C8: while a target is locked, whenever at least one detection of the
frame lies within `target_lock_distance` of the locked position,
`track_mosquito`'s selection comes from the per-camera
nearest-within-lock-distance candidates — the chosen detection itself lies
within the lock distance of the locked position and minimises the distance
over its camera's detections, the choice between the two cameras' nearest
candidates is by confidence alone (left wins ties), the lock is not
cleared, and the stored locked position moves to the chosen detection's
center.  Global best-confidence selection is never consulted here. -/
theorem lock_stability (st : TrackerState) (left right : List Detection)
    (now : ℚ) (p : Int × Int)
    (ha : st.tracking_active = true) (hp : st.locked_target_position = some p)
    (hex : ∃ d ∈ left ++ right, 0 < st.target_lock_distance ∧
      ((dist2 d.center p : Int) : ℚ) <
        st.target_lock_distance * st.target_lock_distance) :
    ∃ best use_left,
      selectTarget st left right = (some (best, use_left), false) ∧
      ((use_left = true ∧ _find_closest_detection st.target_lock_distance left
          (some p) = some best) ∨
       (use_left = false ∧ _find_closest_detection st.target_lock_distance right
          (some p) = some best)) ∧
      ((dist2 best.center p : Int) : ℚ) <
        st.target_lock_distance * st.target_lock_distance ∧
      (∀ x ∈ (if use_left = true then left else right),
        dist2 best.center p ≤ dist2 x.center p) ∧
      (∀ lc rc,
        _find_closest_detection st.target_lock_distance left (some p) = some lc →
        _find_closest_detection st.target_lock_distance right (some p) = some rc →
        best = if rc.confidence ≤ lc.confidence then lc else rc) ∧
      (track_mosquito st left right now).1.locked_target_position =
        some best.center := by
  obtain ⟨d, hd, hpos, hlt⟩ := hex
  have hcond : st.tracking_active = true ∧ st.locked_target_position ≠ none := by
    rw [hp]
    exact ⟨ha, by simp⟩
  have hunf : selectTarget st left right =
      (match _find_closest_detection st.target_lock_distance left (some p),
             _find_closest_detection st.target_lock_distance right (some p) with
       | some lc, some rc =>
         if rc.confidence ≤ lc.confidence then (some (lc, true), false)
         else (some (rc, false), false)
       | some lc, none => (some (lc, true), false)
       | none, some rc => (some (rc, false), false)
       | none, none => (bestConfSelect left right, true)) := by
    unfold selectTarget
    rw [if_pos hcond, hp]
  cases hfl : _find_closest_detection st.target_lock_distance left (some p) with
  | some lc =>
    obtain ⟨hlm, hlpos, hllt, hlmin⟩ := _find_closest_detection_spec _ _ _ _ hfl
    cases hfr : _find_closest_detection st.target_lock_distance right (some p) with
    | some rc =>
      obtain ⟨hrm, hrpos, hrlt, hrmin⟩ := _find_closest_detection_spec _ _ _ _ hfr
      by_cases hcf : rc.confidence ≤ lc.confidence
      · have hsel : selectTarget st left right = (some (lc, true), false) := by
          rw [hunf, hfl, hfr]
          dsimp only
          rw [if_pos hcf]
        refine ⟨lc, true, hsel, ?_, hllt, ?_, ?_,
          track_mosquito_locked_update st left right now lc true false hsel⟩
        · exact Or.inl ⟨rfl, rfl⟩
        · simpa using hlmin
        · intro lc1 rc1 h1 h2
          cases h1
          cases h2
          rw [if_pos hcf]
      · have hsel : selectTarget st left right = (some (rc, false), false) := by
          rw [hunf, hfl, hfr]
          dsimp only
          rw [if_neg hcf]
        refine ⟨rc, false, hsel, ?_, hrlt, ?_, ?_,
          track_mosquito_locked_update st left right now rc false false hsel⟩
        · exact Or.inr ⟨rfl, rfl⟩
        · simpa using hrmin
        · intro lc1 rc1 h1 h2
          cases h1
          cases h2
          rw [if_neg hcf]
    | none =>
      have hsel : selectTarget st left right = (some (lc, true), false) := by
        rw [hunf, hfl, hfr]
      refine ⟨lc, true, hsel, ?_, hllt, ?_, ?_,
        track_mosquito_locked_update st left right now lc true false hsel⟩
      · exact Or.inl ⟨rfl, rfl⟩
      · simpa using hlmin
      · intro lc1 rc1 h1 h2
        exact absurd h2 (by simp)
  | none =>
    have hdr : d ∈ right := by
      rcases List.mem_append.mp hd with h | h
      · obtain ⟨c, hc⟩ := _find_closest_detection_exists st.target_lock_distance
          left p ⟨d, h, hpos, hlt⟩
        rw [hfl] at hc
        exact absurd hc (by simp)
      · exact h
    obtain ⟨rc, hfr⟩ := _find_closest_detection_exists st.target_lock_distance
      right p ⟨d, hdr, hpos, hlt⟩
    obtain ⟨hrm, hrpos, hrlt, hrmin⟩ := _find_closest_detection_spec _ _ _ _ hfr
    have hsel : selectTarget st left right = (some (rc, false), false) := by
      rw [hunf, hfl, hfr]
    refine ⟨rc, false, hsel, ?_, hrlt, ?_, ?_,
      track_mosquito_locked_update st left right now rc false false hsel⟩
    · exact Or.inr ⟨rfl, hfr⟩
    · simpa using hrmin
    · intro lc1 rc1 h1 h2
      exact absurd h1 (by simp)

/-- A nearby low-confidence detection for the left camera (25 px² from the
locked position) and a distant high-confidence distractor for the right
camera. -/
def detNear : Detection :=
  { bbox := (100, 95, 10, 10), center := (105, 100), confidence := 1/2 }

/-- The distant distractor detection. -/
def detFar : Detection :=
  { bbox := (395, 245, 10, 10), center := (400, 250), confidence := 9/10 }

/-- Witness for `lock_stability` on `trk0` (locked at (100, 100), lock
distance 100) with the near detection on the left camera and the
higher-confidence far distractor on the right. -/
theorem lock_stability_witness :
    ∃ best use_left,
      selectTarget trk0 [detNear] [detFar] = (some (best, use_left), false) ∧
      ((use_left = true ∧ _find_closest_detection trk0.target_lock_distance
          [detNear] (some (100, 100)) = some best) ∨
       (use_left = false ∧ _find_closest_detection trk0.target_lock_distance
          [detFar] (some (100, 100)) = some best)) ∧
      ((dist2 best.center (100, 100) : Int) : ℚ) <
        trk0.target_lock_distance * trk0.target_lock_distance ∧
      (∀ x ∈ (if use_left = true then [detNear] else [detFar]),
        dist2 best.center (100, 100) ≤ dist2 x.center (100, 100)) ∧
      (∀ lc rc,
        _find_closest_detection trk0.target_lock_distance [detNear]
          (some (100, 100)) = some lc →
        _find_closest_detection trk0.target_lock_distance [detFar]
          (some (100, 100)) = some rc →
        best = if rc.confidence ≤ lc.confidence then lc else rc) ∧
      (track_mosquito trk0 [detNear] [detFar] 1).1.locked_target_position =
        some best.center := by
  refine lock_stability trk0 [detNear] [detFar] 1 (100, 100) rfl rfl
    ⟨detNear, by simp, ?_, ?_⟩
  · norm_num [trk0]
  · norm_num [dist2, detNear, trk0]

/-! ## streaming_tracking_system.py — unique-target tracking -/

/-- One entry of `active_tracks`:
the dict with keys `center`, `last_seen` and `lost_frames`. -/
structure TrackInfo where
  center : Int × Int
  last_seen : ℚ
  lost_frames : Nat
deriving DecidableEq, Repr

/-- The de-duplication state: the insertion-ordered `active_tracks` dict and
the `next_track_id` counter. -/
structure TargetsState where
  active_tracks : List (Nat × TrackInfo)
  next_track_id : Nat
deriving DecidableEq, Repr

/-- The inner matching loop of `_update_unique_targets` for one detection:
scan the tracks in insertion order, skip those with
`lost_frames > track_lost_frames_max`, and keep the first strict minimiser
of the distance to the detection center, starting from
`min_distance = track_distance_threshold`.  `threshold2` is the square of
the (positive, 100 px) pixel threshold, continuing the squared rendering of
`np.sqrt` comparisons. -/
def matchScan (lostMax : Nat) (center : Int × Int) :
    List (Nat × TrackInfo) → Option Nat × Int → Option Nat × Int
  | [], acc => acc
  | p :: ps, acc =>
    if lostMax < p.2.lost_frames then matchScan lostMax center ps acc
    else if dist2 center p.2.center < acc.2 then
      matchScan lostMax center ps (some p.1, dist2 center p.2.center)
    else matchScan lostMax center ps acc

/-- The matched track id for one detection (`None` = new target). -/
def matchTrack (threshold2 : Int) (lostMax : Nat)
    (tracks : List (Nat × TrackInfo)) (center : Int × Int) : Option Nat :=
  (matchScan lostMax center tracks (none, threshold2)).1

/-- In-place update of a matched track: new center, `last_seen = now`,
`lost_frames = 0`. -/
def updateTrack (tracks : List (Nat × TrackInfo)) (tid : Nat)
    (center : Int × Int) (now : ℚ) : List (Nat × TrackInfo) :=
  tracks.map fun p =>
    if p.1 = tid then (p.1, { center := center, last_seen := now, lost_frames := 0 })
    else p

/-- The per-detection loop of `_update_unique_targets`: match each detection
against the current tracks, updating the matched track or appending a new
one under the next fresh id (dict insertion appends).  Returns the final
tracks, the final counter, and the `detection['track_id']` assignments. -/
def assignLoop (threshold2 : Int) (lostMax : Nat) (now : ℚ) :
    List Detection → List (Nat × TrackInfo) → Nat →
    List (Nat × TrackInfo) × Nat × List (Detection × Nat)
  | [], tracks, nid => (tracks, nid, [])
  | d :: ds, tracks, nid =>
    match matchTrack threshold2 lostMax tracks d.center with
    | some tid =>
      let rest := assignLoop threshold2 lostMax now ds
        (updateTrack tracks tid d.center now) nid
      (rest.1, rest.2.1, (d, tid) :: rest.2.2)
    | none =>
      let newInfo : TrackInfo :=
        { center := d.center, last_seen := now, lost_frames := 0 }
      let rest := assignLoop threshold2 lostMax now ds
        (tracks ++ [(nid, newInfo)]) (nid + 1)
      (rest.1, rest.2.1, (d, nid) :: rest.2.2)

/-- `StreamingTrackingSystem._update_unique_targets`: age every track's
lost-frames counter, run the per-detection assignment loop, then purge every
track whose counter exceeds `track_lost_frames_max`. -/
def _update_unique_targets (threshold2 : Int) (lostMax : Nat)
    (st : TargetsState) (now : ℚ) (detections : List Detection) :
    TargetsState × List (Detection × Nat) :=
  let aged := st.active_tracks.map fun p =>
    (p.1, { p.2 with lost_frames := p.2.lost_frames + 1 })
  let res := assignLoop threshold2 lostMax now detections aged st.next_track_id
  ({ active_tracks := res.1.filter fun p => !(lostMax < p.2.lost_frames),
     next_track_id := res.2.1 }, res.2.2)

/-- A scan that ends on a matched id either carried it in from the
accumulator or found it on a track whose lost-frames counter is within the
maximum. -/
theorem matchScan_some (lostMax : Nat) (center : Int × Int)
    (tracks : List (Nat × TrackInfo)) (acc : Option Nat × Int) (tid : Nat)
    (h : (matchScan lostMax center tracks acc).1 = some tid) :
    acc.1 = some tid ∨
      ∃ info, (tid, info) ∈ tracks ∧ info.lost_frames ≤ lostMax := by
  induction tracks generalizing acc with
  | nil => exact Or.inl h
  | cons p ps ih =>
    unfold matchScan at h
    split at h
    · rcases ih _ h with h1 | ⟨info, hm, hl⟩
      · exact Or.inl h1
      · exact Or.inr ⟨info, List.mem_cons_of_mem p hm, hl⟩
    · rename_i hskip
      split at h
      · rcases ih _ h with h1 | ⟨info, hm, hl⟩
        · simp only at h1
          cases h1
          exact Or.inr ⟨p.2, by simp, by omega⟩
        · exact Or.inr ⟨info, List.mem_cons_of_mem p hm, hl⟩
      · rcases ih _ h with h1 | ⟨info, hm, hl⟩
        · exact Or.inl h1
        · exact Or.inr ⟨info, List.mem_cons_of_mem p hm, hl⟩

/-- A matched track always has `lost_frames ≤ lostMax`: a stale track is
never matched to a new detection. -/
theorem matchTrack_not_stale (threshold2 : Int) (lostMax : Nat)
    (tracks : List (Nat × TrackInfo)) (c : Int × Int) (tid : Nat)
    (h : matchTrack threshold2 lostMax tracks c = some tid) :
    ∃ info, (tid, info) ∈ tracks ∧ info.lost_frames ≤ lostMax := by
  rcases matchScan_some lostMax c tracks (none, threshold2) tid h with h1 | h2
  · exact absurd h1 (by simp)
  · exact h2

/-- Updating a matched track changes no key. -/
theorem updateTrack_map_fst (tracks : List (Nat × TrackInfo)) (tid : Nat)
    (c : Int × Int) (now : ℚ) :
    (updateTrack tracks tid c now).map Prod.fst = tracks.map Prod.fst := by
  induction tracks with
  | nil => rfl
  | cons p ps ih =>
    simp only [updateTrack, List.map_cons] at ih ⊢
    rw [ih]
    split <;> rfl

/-- Invariants of the assignment loop: the counter never decreases, every
resulting track key is either an input key or a fresh id at or above the
incoming counter, all keys stay below the final counter, and every assigned
track id is likewise an input key or fresh. -/
theorem assignLoop_spec (threshold2 : Int) (lostMax : Nat) (now : ℚ)
    (ds : List Detection) (tracks : List (Nat × TrackInfo)) (nid : Nat)
    (hwf : ∀ p ∈ tracks, p.1 < nid) :
    nid ≤ (assignLoop threshold2 lostMax now ds tracks nid).2.1 ∧
    (∀ p ∈ (assignLoop threshold2 lostMax now ds tracks nid).1,
      p.1 < (assignLoop threshold2 lostMax now ds tracks nid).2.1) ∧
    (∀ p ∈ (assignLoop threshold2 lostMax now ds tracks nid).1,
      p.1 ∈ tracks.map Prod.fst ∨ nid ≤ p.1) ∧
    (∀ a ∈ (assignLoop threshold2 lostMax now ds tracks nid).2.2,
      a.2 ∈ tracks.map Prod.fst ∨ nid ≤ a.2) := by
  induction ds generalizing tracks nid with
  | nil =>
    refine ⟨le_refl _, ?_, ?_, ?_⟩
    · intro p hp
      exact hwf p hp
    · intro p hp
      exact Or.inl (List.mem_map.mpr ⟨p, hp, rfl⟩)
    · intro a ha
      exact absurd ha (List.not_mem_nil a)
  | cons d ds ih =>
    unfold assignLoop
    cases hmt : matchTrack threshold2 lostMax tracks d.center with
    | some tid =>
      dsimp only
      obtain ⟨info, hmem, _⟩ := matchTrack_not_stale _ _ _ _ _ hmt
      have hwf2 : ∀ p ∈ updateTrack tracks tid d.center now, p.1 < nid := by
        intro p hp
        obtain ⟨q, hq, hqe⟩ := List.mem_map.mp hp
        have : p.1 = q.1 := by
          rw [← hqe]
          split <;> rfl
        rw [this]
        exact hwf q hq
      obtain ⟨h1, h2, h3, h4⟩ := ih (updateTrack tracks tid d.center now) nid hwf2
      have hfst := updateTrack_map_fst tracks tid d.center now
      refine ⟨h1, h2, ?_, ?_⟩
      · intro p hp
        rcases h3 p hp with h | h
        · exact Or.inl (hfst ▸ h)
        · exact Or.inr h
      · intro a ha
        rcases List.mem_cons.mp ha with h | h
        · rw [h]
          exact Or.inl (List.mem_map.mpr ⟨(tid, info), hmem, rfl⟩)
        · rcases h4 a h with h' | h'
          · exact Or.inl (hfst ▸ h')
          · exact Or.inr h'
    | none =>
      dsimp only
      have hwf2 : ∀ p ∈ tracks ++
          [(nid, ({ center := d.center, last_seen := now, lost_frames := 0 } : TrackInfo))],
          p.1 < nid + 1 := by
        intro p hp
        rcases List.mem_append.mp hp with h | h
        · exact Nat.lt_succ_of_lt (hwf p h)
        · simp at h
          rw [h]
          exact Nat.lt_succ_self nid
      obtain ⟨h1, h2, h3, h4⟩ := ih _ (nid + 1) hwf2
      refine ⟨by omega, h2, ?_, ?_⟩
      · intro p hp
        rcases h3 p hp with h | h
        · rw [List.map_append] at h
          rcases List.mem_append.mp h with h' | h'
          · exact Or.inl h'
          · simp at h'
            omega
        · exact Or.inr (by omega)
      · intro a ha
        rcases List.mem_cons.mp ha with h | h
        · rw [h]
          exact Or.inr (le_refl nid)
        · rcases h4 a h with h' | h'
          · rw [List.map_append] at h'
            rcases List.mem_append.mp h' with h'' | h''
            · exact Or.inl h''
            · simp at h''
              omega
          · exact Or.inr (by omega)

/-- C9: under the well-formedness invariant that every stored track id is
below `next_track_id` (which holds initially and is preserved), after every
call to `_update_unique_targets` no track with `lost_frames` above
`track_lost_frames_max` remains active; such a stale track is never matched
to a detection; the id counter never decreases; and every surviving or
assigned track id is either a pre-existing id or a fresh id at or above the
incoming counter — newly created tracks always receive ids strictly greater
than every id assigned before, so identities are never reused. -/
theorem unique_targets_invariants (threshold2 : Int) (lostMax : Nat)
    (st : TargetsState) (now : ℚ) (dets : List Detection)
    (hwf : ∀ p ∈ st.active_tracks, p.1 < st.next_track_id) :
    (∀ p ∈ (_update_unique_targets threshold2 lostMax st now dets).1.active_tracks,
      p.2.lost_frames ≤ lostMax) ∧
    (∀ (tracks : List (Nat × TrackInfo)) (c : Int × Int) (tid : Nat),
      matchTrack threshold2 lostMax tracks c = some tid →
      ∃ info, (tid, info) ∈ tracks ∧ info.lost_frames ≤ lostMax) ∧
    st.next_track_id ≤
      (_update_unique_targets threshold2 lostMax st now dets).1.next_track_id ∧
    (∀ p ∈ (_update_unique_targets threshold2 lostMax st now dets).1.active_tracks,
      p.1 < (_update_unique_targets threshold2 lostMax st now dets).1.next_track_id) ∧
    (∀ p ∈ (_update_unique_targets threshold2 lostMax st now dets).1.active_tracks,
      p.1 ∈ st.active_tracks.map Prod.fst ∨ st.next_track_id ≤ p.1) ∧
    (∀ a ∈ (_update_unique_targets threshold2 lostMax st now dets).2,
      a.2 ∈ st.active_tracks.map Prod.fst ∨ st.next_track_id ≤ a.2) := by
  have hwfa : ∀ p ∈ st.active_tracks.map (fun p =>
      (p.1, { p.2 with lost_frames := p.2.lost_frames + 1 })),
      p.1 < st.next_track_id := by
    intro p hp
    obtain ⟨q, hq, hqe⟩ := List.mem_map.mp hp
    rw [← hqe]
    exact hwf q hq
  have haf : (st.active_tracks.map (fun p =>
      (p.1, { p.2 with lost_frames := p.2.lost_frames + 1 }))).map Prod.fst =
      st.active_tracks.map Prod.fst := by
    rw [List.map_map]
    rfl
  obtain ⟨h1, h2, h3, h4⟩ :=
    assignLoop_spec threshold2 lostMax now dets _ st.next_track_id hwfa
  refine ⟨?_, fun tracks c tid h => matchTrack_not_stale _ _ _ _ _ h,
    ?_, ?_, ?_, ?_⟩
  · intro p hp
    unfold _update_unique_targets at hp
    dsimp only at hp
    have := (List.mem_filter.mp hp).2
    simpa using this
  · unfold _update_unique_targets
    dsimp only
    exact h1
  · intro p hp
    unfold _update_unique_targets at hp ⊢
    dsimp only at hp ⊢
    exact h2 p (List.mem_filter.mp hp).1
  · intro p hp
    unfold _update_unique_targets at hp
    dsimp only at hp
    rcases h3 p (List.mem_filter.mp hp).1 with h | h
    · exact Or.inl (haf ▸ h)
    · exact Or.inr h
  · intro a ha
    unfold _update_unique_targets at ha
    dsimp only at ha
    rcases h4 a ha with h | h
    · exact Or.inl (haf ▸ h)
    · exact Or.inr h

/-- A well-formed de-duplication state: one track (id 1) and counter 2. -/
def trackInfo0 : TrackInfo := { center := (50, 50), last_seen := 0, lost_frames := 3 }

/-- A well-formed de-duplication state (continued): see `trackInfo0`. -/
def tgt0 : TargetsState :=
  { active_tracks := [(1, trackInfo0)], next_track_id := 2 }

/-- Witness for `unique_targets_invariants` on `tgt0` with the code's
constants (threshold 100 px squared, 30 lost frames) and one detection. -/
theorem unique_targets_invariants_witness :
    (∀ p ∈ (_update_unique_targets 10000 30 tgt0 1 [detNear]).1.active_tracks,
      p.2.lost_frames ≤ 30) ∧
    tgt0.next_track_id ≤
      (_update_unique_targets 10000 30 tgt0 1 [detNear]).1.next_track_id ∧
    (∀ a ∈ (_update_unique_targets 10000 30 tgt0 1 [detNear]).2,
      a.2 ∈ tgt0.active_tracks.map Prod.fst ∨ tgt0.next_track_id ≤ a.2) := by
  have h := unique_targets_invariants 10000 30 tgt0 1 [detNear] (by decide)
  exact ⟨h.1, h.2.2.1, h.2.2.2.2.2⟩
